import Mathlib

/-!
Shallow embedding of the drag-drop task board state core
(`src/state/project-state.ts` and the single-file build) together with the
drag-and-drop protocol handlers of `ProjectItem` and `ProjectList`.

Modelling decisions, each justified by the line of source it embeds:

* `ProjectStatus`, `Project` mirror the `enum ProjectStatus` and
  `class Project` declarations.
* A listener callback is modelled by an effect tree `ListenerEff`: when
  invoked it either only observes the delivered snapshot, or it additionally
  calls `addListener` with a further listener (the only store-mutating
  re-entrancy the specification discusses).  Each listener carries a `String`
  tag so that invocations can be logged.  Every store operation returns the
  list of listener invocations it performed, as pairs
  (listener tag, delivered snapshot).
* `updateListeners` in the source is `for (const listenerFn of this.listeners)`
  over the live `listeners` array.  The JavaScript array iterator re-reads
  `length` on every step, so callbacks pushed during the pass are visited by
  the same pass.  `notifyQueueF` embeds that loop: `pending` is the suffix of
  the live array not yet visited, `registered` is the whole live array; a
  `registers` effect appends to both.  The loop shrinks the measure
  `pendingSize` by exactly one per step, so running it with that much fuel is
  exact (the fuel-exhausted branch is unreachable from `notifyQueue`).
* `Math.random().toString()` in `addProject` is an external entropy source;
  it is embedded as the explicit argument `newId` supplied per call.
* `moveProject` mutates the first `Project` whose `id` matches, in place;
  with value semantics that is `setStatusFirst`.
-/

namespace App

inductive ProjectStatus where
  | ACTIVE
  | FINISHED
deriving DecidableEq, Repr

/-- The `class Project` record: `id`, `title`, `description`, `people`,
`status`.  Only `status` is ever reassigned by the store. -/
structure Project where
  id : String
  title : String
  description : String
  people : Nat
  status : ProjectStatus
deriving DecidableEq, Repr

/-- Effect a listener callback performs when invoked: it observes the
snapshot, and may in addition call `addListener` with one further listener. -/
inductive ListenerEff where
  | observe
  | registers (tag : String) (e : ListenerEff)
deriving DecidableEq, Repr

/-- A registered listener: an identifying tag plus its effect. -/
abbrev Listener := String × ListenerEff

/-- One logged listener invocation: the tag of the invoked listener and the
snapshot (result of `this.projects.slice()`) delivered to it. -/
abbrev Invocation := String × List Project

/-- Structural size of an effect tree; the termination measure of the
notification loop. -/
def effSize : ListenerEff → Nat
  | ListenerEff.observe => 1
  | ListenerEff.registers _ e => 1 + effSize e

/-- Total effect size of the not-yet-visited suffix of the listener array. -/
def pendingSize (pending : List Listener) : Nat :=
  (pending.map fun l => effSize l.2).sum

/-- The store state: the ordered task sequence `projects` and the ordered
listener sequence `listeners`, as in `ProjectState`. -/
structure ProjectState where
  projects : List Project
  listeners : List Listener
deriving DecidableEq, Repr

/-- The body of `updateListeners`: `for (const listenerFn of this.listeners)
\x7b listenerFn(this.projects.slice()) \x7d`, iterating the live array.
`pending` is the unvisited suffix, `registered` the whole current listener
array; a callback with a `registers` effect pushes onto the live array, which
extends both.  Each step consumes one effect node, so `pendingSize pending`
steps of fuel make the first branch with empty fuel unreachable. -/
def notifyQueueF : Nat → List Project → List Listener → List Listener →
    List Invocation × List Listener
  | _, _, [], registered => ([], registered)
  | 0, _, _ :: _, registered => ([], registered)
  | fuel + 1, projects, (tag, ListenerEff.observe) :: rest, registered =>
      let r := notifyQueueF fuel projects rest registered
      ((tag, projects) :: r.1, r.2)
  | fuel + 1, projects, (tag, ListenerEff.registers t e) :: rest, registered =>
      let r := notifyQueueF fuel projects (rest ++ [(t, e)]) (registered ++ [(t, e)])
      ((tag, projects) :: r.1, r.2)

/-- One notification pass over the live listener array, started on the full
array, with exactly enough fuel. -/
def notifyQueue (projects : List Project) (listeners : List Listener) :
    List Invocation × List Listener :=
  notifyQueueF (pendingSize listeners) projects listeners listeners

/-- `private updateListeners()`: runs a pass over the current listeners;
the resulting listener array reflects any `addListener` calls the callbacks
made.  The task sequence is read, never written, by the pass. -/
def updateListeners (s : ProjectState) : List Invocation × ProjectState :=
  let r := notifyQueue s.projects s.listeners
  (r.1, { s with listeners := r.2 })

/-- `addListener(listenerFn)`: `this.listeners.push(listenerFn)`.  It performs
no listener invocation, hence the empty log. -/
def addListener (s : ProjectState) (listenerFn : Listener) :
    List Invocation × ProjectState :=
  ([], { s with listeners := s.listeners ++ [listenerFn] })

/-- `addProject(title, description, people)`: builds
`new Project(Math.random().toString(), title, description, people, ACTIVE)`,
pushes it, then calls `updateListeners`.  The random id is the `newId`
argument. -/
def addProject (s : ProjectState) (newId title description : String)
    (people : Nat) : List Invocation × ProjectState :=
  let newProject : Project :=
    { id := newId, title := title, description := description,
      people := people, status := ProjectStatus.ACTIVE }
  updateListeners { s with projects := s.projects ++ [newProject] }

/-- `this.projects.find((prj) => prj.id === projectId)`: first match. -/
def findById : List Project → String → Option Project
  | [], _ => none
  | p :: rest, pid => if p.id = pid then some p else findById rest pid

/-- In-place `project.status = newStatus` on the object returned by `find`:
with value semantics, replace the status of the first task whose id matches. -/
def setStatusFirst : List Project → String → ProjectStatus → List Project
  | [], _, _ => []
  | p :: rest, pid, st =>
      if p.id = pid then { p with status := st } :: rest
      else p :: setStatusFirst rest pid st

/-- `moveProject(projectId, newStatus)`: find the first task with the id;
if found and its status differs, mutate the status and notify; otherwise do
nothing. -/
def moveProject (s : ProjectState) (projectId : String)
    (newStatus : ProjectStatus) : List Invocation × ProjectState :=
  match findById s.projects projectId with
  | some project =>
      if project.status ≠ newStatus then
        updateListeners
          { s with projects := setStatusFirst s.projects projectId newStatus }
      else ([], s)
  | none => ([], s)

/-- A sequence of `addProject` calls, each a tuple
(generated id, title, description, people). -/
def runAdds (s : ProjectState) :
    List (String × String × String × Nat) → ProjectState
  | [] => s
  | c :: rest => runAdds (addProject s c.1 c.2.1 c.2.2.1 c.2.2.2).2 rest

/-- The task appended by `addProject`, written out. -/
def mkProject (newId title description : String) (people : Nat) : Project :=
  { id := newId, title := title, description := description,
    people := people, status := ProjectStatus.ACTIVE }

end App

namespace App

/-!  Drag-and-drop protocol: `ProjectItem.dragStartHandler`,
`ProjectList.dragOverHandler`, `dragLeaveHandler`, `dropHandler`, and the
browser-level gesture that sequences them. -/

/-- The `type` field of a `ProjectList`: the "active" or the "finished"
list target. -/
inductive ListType where
  | active
  | finished
deriving DecidableEq, Repr

/-- `this.type === "active" ? ProjectStatus.ACTIVE : ProjectStatus.FINISHED`:
the status constant fixed by which list the drop target represents. -/
def targetStatus : ListType → ProjectStatus
  | ListType.active => ProjectStatus.ACTIVE
  | ListType.finished => ProjectStatus.FINISHED

/-- The DOM `DataTransfer` object: the list of declared payload format labels
(`types`), the stored (format, payload) items, and the declared effect. -/
structure DataTransfer where
  types : List String
  items : List (String × String)
  effectAllowed : String
deriving DecidableEq, Repr

/-- DOM `setData(format, payload)`: records the payload under the format and
adds the format to the declared type list if new. -/
def DataTransfer.setData (dt : DataTransfer) (format payload : String) :
    DataTransfer :=
  { dt with
    types := if format ∈ dt.types then dt.types else dt.types ++ [format],
    items := (dt.items.filter fun kv => kv.1 != format) ++ [(format, payload)] }

/-- DOM `getData(format)`: the stored payload for the format, or the empty
string. -/
def DataTransfer.getData (dt : DataTransfer) (format : String) : String :=
  (dt.items.lookup format).getD ""

/-- A fresh gesture starts with an empty `DataTransfer`. -/
def emptyDataTransfer : DataTransfer :=
  { types := [], items := [], effectAllowed := "" }

/-- `ProjectItem.dragStartHandler`: `setData("text/plain", this.project.id)`
and `effectAllowed = "move"`. -/
def dragStartHandler (projectId : String) (dt : DataTransfer) : DataTransfer :=
  { dt.setData "text/plain" projectId with effectAllowed := "move" }

/-- `ProjectList.dragOverHandler`: if the event has a `dataTransfer` and its
first declared type is "text/plain", call `preventDefault()` and add the
"droppable" class to the list element.  Returns the new droppable-class state
and whether `preventDefault` was called. -/
def dragOverHandler (droppable : Bool) (dataTransfer : Option DataTransfer) :
    Bool × Bool :=
  match dataTransfer with
  | some dt =>
      if dt.types.head? = some "text/plain" then (true, true)
      else (droppable, false)
  | none => (droppable, false)

/-- `ProjectList.dragLeaveHandler`: remove the "droppable" class. -/
def dragLeaveHandler (_droppable : Bool) : Bool :=
  false

/-- `ProjectList.dropHandler`: read the id with `getData("text/plain")` and
call `moveProject(id, fixed status of this list)`.  The first component
records that single `moveProject` call; the droppable class is not touched. -/
def dropHandler (ty : ListType) (s : ProjectState) (dt : DataTransfer) :
    (String × ProjectStatus) × (List Invocation × ProjectState) :=
  let prjId := dt.getData "text/plain"
  ((prjId, targetStatus ty), moveProject s prjId (targetStatus ty))

/-- The browser drag events a gesture delivers to the handlers above. -/
inductive DragEvt where
  | dragstart
  | dragover
  | dragleave
  | drop
  | dragend
deriving DecidableEq, Repr

/-- One (source item, drop target) interaction: the gesture payload, the
droppable-class state of the target list element, whether the latest
`dragover` accepted the gesture (called `preventDefault`), the store, and the
log of `moveProject(id, status)` calls made by the drop handler. -/
structure Gesture where
  dt : DataTransfer
  droppable : Bool
  accepted : Bool
  store : ProjectState
  moveCalls : List (String × ProjectStatus)
deriving DecidableEq, Repr

/-- Delivery of one browser drag event.  The handlers are those of the
source, exactly as in the repository.  The browser side is modelled from the
spec and the HTML drag-and-drop model: the `drop` event reaches the target
drop handler only when the gesture was accepted by the preceding `dragover`
(its `preventDefault` suppressed the default reject behaviour);
`dragEndHandler` only logs to the console and so changes nothing. -/
def stepGesture (ty : ListType) (projectId : String) (g : Gesture) :
    DragEvt → Gesture
  | DragEvt.dragstart => { g with dt := dragStartHandler projectId g.dt }
  | DragEvt.dragover =>
      let r := dragOverHandler g.droppable (some g.dt)
      { g with droppable := r.1, accepted := r.2 }
  | DragEvt.dragleave =>
      { g with droppable := dragLeaveHandler g.droppable, accepted := false }
  | DragEvt.drop =>
      if g.accepted then
        let r := dropHandler ty g.store g.dt
        { g with store := r.2.2, moveCalls := g.moveCalls ++ [r.1] }
      else g
  | DragEvt.dragend => g

/-- Delivery of a sequence of drag events. -/
def runGesture (ty : ListType) (projectId : String) (g : Gesture) :
    List DragEvt → Gesture
  | [] => g
  | e :: rest => runGesture ty projectId (stepGesture ty projectId g e) rest

/-- The state at the start of a gesture: empty payload, no droppable class,
not accepted, no `moveProject` call yet. -/
def initialGesture (s : ProjectState) : Gesture :=
  { dt := emptyDataTransfer, droppable := false, accepted := false,
    store := s, moveCalls := [] }

end App

namespace App

/-!  Reference-level model of the snapshot handed to listeners.
`this.projects` is a JavaScript array object holding references to mutable
`Project` records; `this.projects.slice()` allocates a fresh array object
holding the same references (a shallow copy).  `JsHeap` makes both kinds of
object explicit: `objects` is the heap of `Project` records addressed by
index, `arrays` the heap of array objects, each a list of record addresses. -/

structure JsHeap where
  objects : List Project
  arrays : List (List Nat)
deriving DecidableEq, Repr

/-- Read an array object: the list of record addresses it holds. -/
def readArr (h : JsHeap) (a : Nat) : List Nat :=
  match h.arrays[a]? with
  | some v => v
  | none => []

/-- Read a `Project` record by address. -/
def readObj (h : JsHeap) (a : Nat) : Option Project :=
  h.objects[a]?

/-- `slice()` on the array at address `a`: allocate a fresh array object with
the same contents (the same record addresses) and return its address. -/
def slice (h : JsHeap) (a : Nat) : JsHeap × Nat :=
  ({ h with arrays := h.arrays ++ [readArr h a] }, h.arrays.length)

/-- Mutate an array object in place (element writes, push, splice and the
like replace its contents). -/
def setArr (h : JsHeap) (a : Nat) (v : List Nat) : JsHeap :=
  { h with arrays := h.arrays.set a v }

/-- Mutate a `Project` record in place (for example `p.status = ...`). -/
def setObj (h : JsHeap) (a : Nat) (p : Project) : JsHeap :=
  { h with objects := h.objects.set a p }

/-- The task sequence the store sees through its array object at `sa`. -/
def storeView (h : JsHeap) (sa : Nat) : List (Option Project) :=
  (readArr h sa).map (readObj h)

/-- A concrete heap: one task record at address 0, the store array at array
address 0 holding the single reference 0. -/
def heapEx : JsHeap :=
  { objects := [mkProject "a" "t" "d" 1], arrays := [[0]] }

end App

namespace App

/-!  Basic lemmas about the notification loop. -/

theorem effSize_pos (e : ListenerEff) : 1 ≤ effSize e := by
  cases e <;> simp [effSize]

theorem pendingSize_cons (l : Listener) (rest : List Listener) :
    pendingSize (l :: rest) = effSize l.2 + pendingSize rest := by
  simp [pendingSize]

theorem pendingSize_append (a b : List Listener) :
    pendingSize (a ++ b) = pendingSize a + pendingSize b := by
  simp [pendingSize]

theorem notifyQueueF_cons_observe (fuel : Nat) (projects : List Project)
    (tag : String) (rest registered : List Listener) :
    notifyQueueF (fuel + 1) projects ((tag, ListenerEff.observe) :: rest)
        registered
      = ((tag, projects) :: (notifyQueueF fuel projects rest registered).1,
         (notifyQueueF fuel projects rest registered).2) := rfl

theorem notifyQueueF_cons_registers (fuel : Nat) (projects : List Project)
    (tag t : String) (e : ListenerEff) (rest registered : List Listener) :
    notifyQueueF (fuel + 1) projects
        ((tag, ListenerEff.registers t e) :: rest) registered
      = ((tag, projects) ::
           (notifyQueueF fuel projects (rest ++ [(t, e)])
              (registered ++ [(t, e)])).1,
         (notifyQueueF fuel projects (rest ++ [(t, e)])
            (registered ++ [(t, e)])).2) := rfl

/-- A pass over listeners that only observe invokes exactly those listeners,
in order, each with the same full snapshot, and leaves the listener array
unchanged. -/
theorem notifyQueueF_observe :
    ∀ (fuel : Nat) (projects : List Project) (pending registered : List Listener),
      (∀ l ∈ pending, l.2 = ListenerEff.observe) →
      pendingSize pending ≤ fuel →
      notifyQueueF fuel projects pending registered
        = (pending.map fun l => (l.1, projects), registered) := by
  intro fuel
  induction fuel with
  | zero =>
      intro projects pending registered hobs hfuel
      cases pending with
      | nil => simp [notifyQueueF]
      | cons hd rest =>
          exfalso
          have h1 := effSize_pos hd.2
          have h2 := pendingSize_cons hd rest
          omega
  | succ m ih =>
      intro projects pending registered hobs hfuel
      cases pending with
      | nil => simp [notifyQueueF]
      | cons hd rest =>
          obtain ⟨tag, eff⟩ := hd
          have he : eff = ListenerEff.observe := hobs (tag, eff) (by simp)
          subst he
          have hrest : pendingSize rest ≤ m := by
            have h2 := pendingSize_cons (tag, ListenerEff.observe) rest
            simp [effSize] at h2
            omega
          rw [notifyQueueF_cons_observe,
            ih projects rest registered
              (fun l hl => hobs l (List.mem_cons_of_mem _ hl)) hrest]
          simp

/-- Every listener in the unvisited suffix of the live array is invoked by
the pass, with the full snapshot. -/
theorem notifyQueueF_invokes_pending :
    ∀ (fuel : Nat) (projects : List Project) (pending registered : List Listener)
      (l : Listener), pendingSize pending ≤ fuel → l ∈ pending →
      (l.1, projects) ∈ (notifyQueueF fuel projects pending registered).1 := by
  intro fuel
  induction fuel with
  | zero =>
      intro projects pending registered l hfuel hl
      exfalso
      cases pending with
      | nil => simp at hl
      | cons hd rest =>
          have h1 := effSize_pos hd.2
          have h2 := pendingSize_cons hd rest
          omega
  | succ m ih =>
      intro projects pending registered l hfuel hl
      cases pending with
      | nil => simp at hl
      | cons hd rest =>
          obtain ⟨tag, eff⟩ := hd
          rcases List.mem_cons.mp hl with heq | hmem
          · subst heq
            cases eff with
            | observe => rw [notifyQueueF_cons_observe]; exact List.mem_cons_self _ _
            | registers t e => rw [notifyQueueF_cons_registers]; exact List.mem_cons_self _ _
          · cases eff with
            | observe =>
                have hrest : pendingSize rest ≤ m := by
                  have h2 := pendingSize_cons (tag, ListenerEff.observe) rest
                  simp [effSize] at h2
                  omega
                rw [notifyQueueF_cons_observe]
                exact List.mem_cons_of_mem _
                  (ih projects rest registered l hrest hmem)
            | registers t e =>
                have hrest : pendingSize (rest ++ [(t, e)]) ≤ m := by
                  have h1 := pendingSize_cons (tag, ListenerEff.registers t e) rest
                  have h2 := pendingSize_append rest [(t, e)]
                  have h3 : pendingSize [(t, e)] = effSize e := by
                    simp [pendingSize]
                  simp [effSize] at h1
                  omega
                rw [notifyQueueF_cons_registers]
                exact List.mem_cons_of_mem _
                  (ih projects (rest ++ [(t, e)]) (registered ++ [(t, e)]) l
                    hrest (List.mem_append_left _ hmem))

/-- Live iteration: a listener that some listener of the unvisited suffix
registers during the pass is itself invoked by the same pass. -/
theorem notifyQueueF_invokes_registered :
    ∀ (fuel : Nat) (projects : List Project) (pending registered : List Listener)
      (tag t : String) (e : ListenerEff),
      pendingSize pending ≤ fuel →
      (tag, ListenerEff.registers t e) ∈ pending →
      (t, projects) ∈ (notifyQueueF fuel projects pending registered).1 := by
  intro fuel
  induction fuel with
  | zero =>
      intro projects pending registered tag t e hfuel hl
      exfalso
      cases pending with
      | nil => simp at hl
      | cons hd rest =>
          have h1 := effSize_pos hd.2
          have h2 := pendingSize_cons hd rest
          omega
  | succ m ih =>
      intro projects pending registered tag t e hfuel hl
      cases pending with
      | nil => simp at hl
      | cons hd rest =>
          rcases List.mem_cons.mp hl with heq | hmem
          · subst heq
            have hrest : pendingSize (rest ++ [(t, e)]) ≤ m := by
              have h1 := pendingSize_cons (tag, ListenerEff.registers t e) rest
              have h2 := pendingSize_append rest [(t, e)]
              have h3 : pendingSize [(t, e)] = effSize e := by
                simp [pendingSize]
              simp [effSize] at h1
              omega
            rw [notifyQueueF_cons_registers]
            exact List.mem_cons_of_mem _
              (notifyQueueF_invokes_pending m projects (rest ++ [(t, e)])
                (registered ++ [(t, e)]) (t, e) hrest
                (List.mem_append_right _ (List.mem_cons_self _ _)))
          · obtain ⟨htag, heff⟩ := hd
            cases heff with
            | observe =>
                have hrest : pendingSize rest ≤ m := by
                  have h2 := pendingSize_cons (htag, ListenerEff.observe) rest
                  simp [effSize] at h2
                  omega
                rw [notifyQueueF_cons_observe]
                exact List.mem_cons_of_mem _
                  (ih projects rest registered tag t e hrest hmem)
            | registers u f =>
                have hrest : pendingSize (rest ++ [(u, f)]) ≤ m := by
                  have h1 := pendingSize_cons (htag, ListenerEff.registers u f) rest
                  have h2 := pendingSize_append rest [(u, f)]
                  have h3 : pendingSize [(u, f)] = effSize f := by
                    simp [pendingSize]
                  simp [effSize] at h1
                  omega
                rw [notifyQueueF_cons_registers]
                exact List.mem_cons_of_mem _
                  (ih projects (rest ++ [(u, f)]) (registered ++ [(u, f)]) tag t e
                    hrest (List.mem_append_left _ hmem))

end App

namespace App

/-!  Lemmas about the store operations. -/

/-- A notification pass over observing listeners delivers the full task
sequence to each registered listener once, in registration order, and leaves
the listener array as it was. -/
theorem updateListeners_observe (s : ProjectState)
    (h : ∀ l ∈ s.listeners, l.2 = ListenerEff.observe) :
    updateListeners s = (s.listeners.map fun l => (l.1, s.projects), s) := by
  have hq := notifyQueueF_observe (pendingSize s.listeners) s.projects
    s.listeners s.listeners h (Nat.le_refl _)
  show ((notifyQueue s.projects s.listeners).1,
    { s with listeners := (notifyQueue s.projects s.listeners).2 }) = _
  rw [show notifyQueue s.projects s.listeners
    = (s.listeners.map fun l => (l.1, s.projects), s.listeners) from hq]

/-- A notification pass never writes the task sequence. -/
theorem updateListeners_snd_projects (s : ProjectState) :
    (updateListeners s).2.projects = s.projects := rfl

theorem addProject_snd_projects (s : ProjectState)
    (newId title description : String) (people : Nat) :
    (addProject s newId title description people).2.projects
      = s.projects ++ [mkProject newId title description people] := rfl

theorem findById_eq_none (ps : List Project) (pid : String)
    (h : ∀ p ∈ ps, p.id ≠ pid) : findById ps pid = none := by
  induction ps with
  | nil => rfl
  | cons p rest ih =>
      have hp := h p (List.mem_cons_self _ _)
      simp only [findById, if_neg hp]
      exact ih fun q hq => h q (List.mem_cons_of_mem _ hq)

theorem setStatusFirst_length (ps : List Project) (pid : String)
    (st : ProjectStatus) :
    (setStatusFirst ps pid st).length = ps.length := by
  induction ps with
  | nil => rfl
  | cons p rest ih =>
      by_cases hp : p.id = pid <;> simp [setStatusFirst, hp, ih]

/-- Mutating the status of the first matching task keeps every position:
identity fields are untouched everywhere, and a task whose id differs from
the searched id is untouched entirely. -/
theorem setStatusFirst_getElem? (ps : List Project) (pid : String)
    (st : ProjectStatus) :
    ∀ (i : Nat) (p : Project), ps[i]? = some p →
      ∃ p', (setStatusFirst ps pid st)[i]? = some p' ∧
        p'.id = p.id ∧ p'.title = p.title ∧ p'.description = p.description ∧
        p'.people = p.people ∧ (p.id ≠ pid → p' = p) := by
  induction ps with
  | nil => intro i p hp; simp at hp
  | cons q rest ih =>
      intro i p hp
      cases i with
      | zero =>
          rw [List.getElem?_cons_zero] at hp
          have hqp : q = p := Option.some.inj hp
          subst hqp
          by_cases hq : q.id = pid
          · refine ⟨{ q with status := st }, ?_, rfl, rfl, rfl, rfl,
              fun hc => absurd hq hc⟩
            simp [setStatusFirst, hq]
          · refine ⟨q, ?_, rfl, rfl, rfl, rfl, fun _ => rfl⟩
            simp [setStatusFirst, hq]
      | succ j =>
          rw [List.getElem?_cons_succ] at hp
          by_cases hq : q.id = pid
          · refine ⟨p, ?_, rfl, rfl, rfl, rfl, fun _ => rfl⟩
            simp [setStatusFirst, hq, hp]
          · obtain ⟨p', hp', hfields⟩ := ih j p hp
            exact ⟨p', by simp [setStatusFirst, hq, hp'], hfields⟩

/-- `moveProject` when the first matching task has a different status:
exactly the mutate-and-notify branch. -/
theorem moveProject_found_ne (s : ProjectState) (pid : String)
    (st : ProjectStatus) (p : Project)
    (hf : findById s.projects pid = some p) (hst : p.status ≠ st) :
    moveProject s pid st
      = updateListeners
          { s with projects := setStatusFirst s.projects pid st } := by
  unfold moveProject
  rw [hf]
  simp [hst]

/-- `moveProject` when the first matching task already has the status. -/
theorem moveProject_found_eq (s : ProjectState) (pid : String)
    (st : ProjectStatus) (p : Project)
    (hf : findById s.projects pid = some p) (hst : p.status = st) :
    moveProject s pid st = ([], s) := by
  unfold moveProject
  rw [hf]
  simp [hst]

/-- `moveProject` when no task matches. -/
theorem moveProject_not_found (s : ProjectState) (pid : String)
    (st : ProjectStatus) (hf : findById s.projects pid = none) :
    moveProject s pid st = ([], s) := by
  unfold moveProject
  rw [hf]

/-- Each `addProject` call appends exactly one task; a sequence of calls
appends the corresponding tasks in call order. -/
theorem runAdds_projects (calls : List (String × String × String × Nat)) :
    ∀ s : ProjectState,
      (runAdds s calls).projects
        = s.projects ++ calls.map fun c =>
            mkProject c.1 c.2.1 c.2.2.1 c.2.2.2 := by
  induction calls with
  | nil => intro s; simp [runAdds]
  | cons c rest ih =>
      intro s
      show (runAdds (addProject s c.1 c.2.1 c.2.2.1 c.2.2.2).2 rest).projects = _
      rw [ih, addProject_snd_projects]
      simp

end App

namespace App

/-- C1 (counterexample): the claim that a listener registered during a
notification pass is not invoked by that pass fails on the code.
`updateListeners` iterates the live listener array, so when the single
listener A registers a listener B while being notified by `addProject`, B is
invoked as part of the same in-progress pass: the invocation log of the
`addProject` call contains an invocation of B. -/
theorem notification_pass_snapshot_cex :
    ("B", [mkProject "id1" "t" "d" 1])
      ∈ (addProject
          { projects := [],
            listeners := [("A", ListenerEff.registers "B" ListenerEff.observe)] }
          "id1" "t" "d" 1).1 := by
  decide

/-- C1 (amended): the notification pass iterates the live listener array.
Every listener registered when the pass began is invoked, and a listener that
one of them registers during the pass is also invoked as part of the same
in-progress pass, with the same full snapshot. -/
theorem pass_invokes_listeners_registered_during_pass (s : ProjectState)
    (tag t : String) (e : ListenerEff)
    (h : (tag, ListenerEff.registers t e) ∈ s.listeners)
    (newId title description : String) (people : Nat) :
    ((tag, s.projects ++ [mkProject newId title description people])
        ∈ (addProject s newId title description people).1)
  ∧ ((t, s.projects ++ [mkProject newId title description people])
        ∈ (addProject s newId title description people).1) := by
  constructor
  · exact notifyQueueF_invokes_pending (pendingSize s.listeners)
      (s.projects ++ [mkProject newId title description people])
      s.listeners s.listeners (tag, ListenerEff.registers t e) (Nat.le_refl _) h
  · exact notifyQueueF_invokes_registered (pendingSize s.listeners)
      (s.projects ++ [mkProject newId title description people])
      s.listeners s.listeners tag t e (Nat.le_refl _) h

/-- C1 (witness): the amended theorem at a concrete store. -/
theorem pass_invokes_registered_witness :
    (("A", [mkProject "id1" "t" "d" 1])
        ∈ (addProject
            { projects := [],
              listeners := [("A", ListenerEff.registers "B" ListenerEff.observe)] }
            "id1" "t" "d" 1).1)
  ∧ (("B", [mkProject "id1" "t" "d" 1])
        ∈ (addProject
            { projects := [],
              listeners := [("A", ListenerEff.registers "B" ListenerEff.observe)] }
            "id1" "t" "d" 1).1) := by
  exact pass_invokes_listeners_registered_during_pass
    { projects := [],
      listeners := [("A", ListenerEff.registers "B" ListenerEff.observe)] }
    "A" "B" ListenerEff.observe (by decide) "id1" "t" "d" 1

/-- C2: `moveProject` is a silent no-op when no task has the id or the first
matching task already has the status (state unchanged, no listener invoked,
no failure); otherwise it mutates the status of the matching task and runs a
notification pass, which for observing subscribers notifies each of them. -/
theorem moveProject_silent_noop_or_notify (s : ProjectState) (pid : String)
    (st : ProjectStatus) :
    ((∀ p ∈ s.projects, p.id ≠ pid) → moveProject s pid st = ([], s))
  ∧ (∀ p, findById s.projects pid = some p → p.status = st →
       moveProject s pid st = ([], s))
  ∧ (∀ p, findById s.projects pid = some p → p.status ≠ st →
       moveProject s pid st
         = updateListeners { s with projects := setStatusFirst s.projects pid st }
       ∧ ((∀ l ∈ s.listeners, l.2 = ListenerEff.observe) →
            (moveProject s pid st).1
              = s.listeners.map fun l => (l.1, setStatusFirst s.projects pid st))) := by
  refine ⟨fun h => moveProject_not_found s pid st (findById_eq_none s.projects pid h),
    fun p hf hst => moveProject_found_eq s pid st p hf hst,
    fun p hf hst => ⟨moveProject_found_ne s pid st p hf hst, fun hobs => ?_⟩⟩
  rw [moveProject_found_ne s pid st p hf hst]
  exact congrArg Prod.fst
    (updateListeners_observe
      { s with projects := setStatusFirst s.projects pid st } hobs)

/-- C2 (witness): a redundant transition on a concrete store is a silent
no-op. -/
theorem moveProject_silent_noop_witness :
    moveProject { projects := [mkProject "a" "t" "d" 1],
                  listeners := [("L", ListenerEff.observe)] }
        "a" ProjectStatus.ACTIVE
      = ([], { projects := [mkProject "a" "t" "d" 1],
               listeners := [("L", ListenerEff.observe)] }) := by
  exact (moveProject_silent_noop_or_notify
      { projects := [mkProject "a" "t" "d" 1],
        listeners := [("L", ListenerEff.observe)] } "a" ProjectStatus.ACTIVE).2.1
    (mkProject "a" "t" "d" 1) (by decide) (by decide)

/-- C3: when the generated ids of a sequence of `addProject` calls are
pairwise distinct (the collision-freeness the claim assumes of
`Math.random().toString()`), every task in the resulting store has a distinct
id; and the store performs no collision re-check of its own: each call
appends its task unconditionally, whatever the generated id is. -/
theorem addProject_ids_distinct (listeners0 : List Listener)
    (calls : List (String × String × String × Nat))
    (h : (calls.map fun c => c.1).Nodup) :
    (((runAdds { projects := [], listeners := listeners0 } calls).projects.map
        fun p => p.id).Nodup)
  ∧ (∀ (s : ProjectState) (newId title description : String) (people : Nat),
       (addProject s newId title description people).2.projects
         = s.projects ++ [mkProject newId title description people]) := by
  constructor
  · rw [runAdds_projects]
    simpa [List.map_map, Function.comp, mkProject] using h
  · intro s newId title description people
    exact addProject_snd_projects s newId title description people

/-- C3 (witness): two calls with distinct generated ids give distinct task
ids. -/
theorem addProject_ids_distinct_witness :
    ((runAdds { projects := [], listeners := [] }
        [("id1", "t1", "d1", 1), ("id2", "t2", "d2", 2)]).projects.map
      fun p => p.id).Nodup := by
  exact (addProject_ids_distinct []
    [("id1", "t1", "d1", 1), ("id2", "t2", "d2", 2)] (by decide)).1

/-- C5: any single store mutation (an `addProject`, or a status-changing
`moveProject`) invokes every registered observing listener in registration
order, a listener registered twice being invoked twice, each receiving the
full unfiltered current task sequence as its snapshot; and `addListener`
itself performs no invocation. -/
theorem notification_fanout_order (s : ProjectState)
    (h : ∀ l ∈ s.listeners, l.2 = ListenerEff.observe)
    (newId title description : String) (people : Nat)
    (pid : String) (st : ProjectStatus) (p : Project) (lf : Listener) :
    ((addProject s newId title description people).1
       = s.listeners.map fun l =>
           (l.1, s.projects ++ [mkProject newId title description people]))
  ∧ (findById s.projects pid = some p → p.status ≠ st →
       (moveProject s pid st).1
         = s.listeners.map fun l => (l.1, setStatusFirst s.projects pid st))
  ∧ (addListener s lf).1 = [] := by
  refine ⟨?_, fun hf hst => ?_, rfl⟩
  · exact congrArg Prod.fst
      (updateListeners_observe
        { s with projects :=
            s.projects ++ [mkProject newId title description people] } h)
  · rw [moveProject_found_ne s pid st p hf hst]
    exact congrArg Prod.fst
      (updateListeners_observe
        { s with projects := setStatusFirst s.projects pid st } h)

/-- C5 (witness): three registrations, one of them a duplicate, are invoked
in registration order with equal snapshots. -/
theorem notification_fanout_order_witness :
    (addProject
        { projects := [],
          listeners := [("L1", ListenerEff.observe), ("L2", ListenerEff.observe),
                        ("L1", ListenerEff.observe)] } "i" "t" "d" 2).1
      = [("L1", [mkProject "i" "t" "d" 2]), ("L2", [mkProject "i" "t" "d" 2]),
         ("L1", [mkProject "i" "t" "d" 2])] := by
  exact (notification_fanout_order
    { projects := [],
      listeners := [("L1", ListenerEff.observe), ("L2", ListenerEff.observe),
                    ("L1", ListenerEff.observe)] }
    (by decide) "i" "t" "d" 2 "x" ProjectStatus.ACTIVE (mkProject "x" "a" "b" 1)
    ("Z", ListenerEff.observe)).1

/-- C6: `addProject` builds a task from the generated id and the given title,
description and people, with status ACTIVE, appends it at the end of the task
sequence (all prior tasks kept in order), and then notifies each observing
subscriber exactly once. -/
theorem addProject_constructs_appends_notifies (s : ProjectState)
    (newId title description : String) (people : Nat)
    (h : ∀ l ∈ s.listeners, l.2 = ListenerEff.observe) :
    addProject s newId title description people
      = (s.listeners.map fun l =>
           (l.1, s.projects ++ [mkProject newId title description people]),
         { projects := s.projects ++ [mkProject newId title description people],
           listeners := s.listeners }) := by
  exact updateListeners_observe
    { s with projects :=
        s.projects ++ [mkProject newId title description people] } h

/-- C6 (witness): the spec scenario A call on a fresh store with one
subscriber. -/
theorem addProject_constructs_witness :
    addProject { projects := [], listeners := [("L", ListenerEff.observe)] }
        "i" "Build API" "Design REST layer" 3
      = ([("L", [mkProject "i" "Build API" "Design REST layer" 3])],
         { projects := [mkProject "i" "Build API" "Design REST layer" 3],
           listeners := [("L", ListenerEff.observe)] }) := by
  exact addProject_constructs_appends_notifies
    { projects := [], listeners := [("L", ListenerEff.observe)] }
    "i" "Build API" "Design REST layer" 3 (by decide)

/-- C10 (counterexample): the listener sequence is not always unchanged by a
`moveProject` call: a listener that itself registers a listener during the
triggered notification pass grows the listener array before the call
returns. -/
theorem moveProject_listener_growth_cex :
    (moveProject
        { projects := [mkProject "a" "t" "d" 1],
          listeners := [("A", ListenerEff.registers "B" ListenerEff.observe)] }
        "a" ProjectStatus.FINISHED).2.listeners
      ≠ [("A", ListenerEff.registers "B" ListenerEff.observe)] := by
  decide

/-- C10 (amended): frame of `moveProject`: the length and order of the task
sequence are unchanged; every position keeps its id, title, description and
people; a task whose id differs from the searched id is unchanged entirely
(only the status of the first matching task may change); and the listener
sequence is unchanged provided no invoked listener itself registers a new
listener (the operation itself never writes the listener array; only listener
callbacks can, through `addListener`). -/
theorem moveProject_frame (s : ProjectState) (pid : String)
    (st : ProjectStatus) :
    ((moveProject s pid st).2.projects.length = s.projects.length)
  ∧ (∀ (i : Nat) (p : Project), s.projects[i]? = some p →
       ∃ p', (moveProject s pid st).2.projects[i]? = some p' ∧
         p'.id = p.id ∧ p'.title = p.title ∧ p'.description = p.description ∧
         p'.people = p.people ∧ (p.id ≠ pid → p' = p))
  ∧ ((∀ l ∈ s.listeners, l.2 = ListenerEff.observe) →
       (moveProject s pid st).2.listeners = s.listeners) := by
  rcases hf : findById s.projects pid with _ | p
  · rw [moveProject_not_found s pid st hf]
    exact ⟨rfl, fun i q hq => ⟨q, hq, rfl, rfl, rfl, rfl, fun _ => rfl⟩,
      fun _ => rfl⟩
  · by_cases hst : p.status = st
    · rw [moveProject_found_eq s pid st p hf hst]
      exact ⟨rfl, fun i q hq => ⟨q, hq, rfl, rfl, rfl, rfl, fun _ => rfl⟩,
        fun _ => rfl⟩
    · rw [moveProject_found_ne s pid st p hf hst]
      refine ⟨?_, ?_, ?_⟩
      · rw [updateListeners_snd_projects]
        exact setStatusFirst_length s.projects pid st
      · intro i q hq
        rw [updateListeners_snd_projects]
        exact setStatusFirst_getElem? s.projects pid st i q hq
      · intro hobs
        rw [updateListeners_observe
          { s with projects := setStatusFirst s.projects pid st } hobs]

/-- C10 (witness): the amended frame at a concrete store. -/
theorem moveProject_frame_witness :
    (moveProject { projects := [mkProject "a" "t" "d" 1], listeners := [] }
        "a" ProjectStatus.FINISHED).2.listeners = [] := by
  exact (moveProject_frame
    { projects := [mkProject "a" "t" "d" 1], listeners := [] }
    "a" ProjectStatus.FINISHED).2.2 (by simp)

end App

namespace App

/-!  Lemmas about the drag gesture. -/

theorem runGesture_append (ty : ListType) (pid : String) :
    ∀ (a b : List DragEvt) (g : Gesture),
      runGesture ty pid g (a ++ b)
        = runGesture ty pid (runGesture ty pid g a) b := by
  intro a
  induction a with
  | nil => intro b g; rfl
  | cons e rest ih =>
      intro b g
      show runGesture ty pid (stepGesture ty pid g e) (rest ++ b) = _
      exact ih b (stepGesture ty pid g e)

/-- The payload after `dragStartHandler` on a fresh gesture: exactly one
declared type, "text/plain", carrying the project id, effect "move". -/
theorem dragStartHandler_empty (pid : String) :
    dragStartHandler pid emptyDataTransfer
      = { types := ["text/plain"], items := [("text/plain", pid)],
          effectAllowed := "move" } := by
  simp [dragStartHandler, DataTransfer.setData, emptyDataTransfer]

/-- Any positive number of dragover deliveries of a matching gesture leaves
the target accepted and marked droppable, and changes nothing else. -/
theorem runGesture_dragover_replicate (ty : ListType) (pid : String) :
    ∀ (n : Nat) (g : Gesture), 1 ≤ n →
      g.dt.types.head? = some "text/plain" →
      runGesture ty pid g (List.replicate n DragEvt.dragover)
        = { g with droppable := true, accepted := true } := by
  intro n
  induction n with
  | zero => intro g hn; omega
  | succ m ih =>
      intro g _ hdt
      rw [List.replicate_succ]
      show runGesture ty pid (stepGesture ty pid g DragEvt.dragover)
        (List.replicate m DragEvt.dragover) = _
      have hstep : stepGesture ty pid g DragEvt.dragover
          = { g with droppable := true, accepted := true } := by
        simp [stepGesture, dragOverHandler, hdt]
      rw [hstep]
      cases m with
      | zero => rfl
      | succ k =>
          rw [ih { g with droppable := true, accepted := true }
            (Nat.succ_le_succ (Nat.zero_le k)) hdt]

/-- A gesture whose declared payload label does not match the marker is never
accepted, so no sequence of target-side events (no new drag start) makes the
drop handler run: the `moveProject` call log stays as it is. -/
theorem run_unaccepted_no_move (ty : ListType) (pid : String) :
    ∀ (evts : List DragEvt) (g : Gesture),
      (∀ e ∈ evts, e ≠ DragEvt.dragstart) →
      ¬ g.dt.types.head? = some "text/plain" → g.accepted = false →
      (runGesture ty pid g evts).moveCalls = g.moveCalls := by
  intro evts
  induction evts with
  | nil => intro g _ _ _; rfl
  | cons e rest ih =>
      intro g hns hdt hacc
      have hrest : ∀ x ∈ rest, x ≠ DragEvt.dragstart :=
        fun x hx => hns x (List.mem_cons_of_mem _ hx)
      cases e with
      | dragstart => exact absurd rfl (hns DragEvt.dragstart (List.mem_cons_self _ _))
      | dragover =>
          have hstep : stepGesture ty pid g DragEvt.dragover
              = { g with accepted := false } := by
            simp [stepGesture, dragOverHandler, hdt]
          show (runGesture ty pid (stepGesture ty pid g DragEvt.dragover)
            rest).moveCalls = _
          rw [hstep]
          exact ih { g with accepted := false } hrest hdt rfl
      | dragleave =>
          show (runGesture ty pid (stepGesture ty pid g DragEvt.dragleave)
            rest).moveCalls = _
          exact ih { g with droppable := false, accepted := false } hrest hdt rfl
      | drop =>
          have hstep : stepGesture ty pid g DragEvt.drop = g := by
            simp [stepGesture, hacc]
          show (runGesture ty pid (stepGesture ty pid g DragEvt.drop)
            rest).moveCalls = _
          rw [hstep]
          exact ih g hrest hdt hacc
      | dragend =>
          show (runGesture ty pid (stepGesture ty pid g DragEvt.dragend)
            rest).moveCalls = _
          exact ih g hrest hdt hacc

end App

namespace App

/-- C7: a completed drop gesture (drag start on a task, any positive number
of dragover deliveries, then the drop) calls `moveProject` exactly once, with
the id carried in the gesture payload and the status constant fixed by which
list the target represents; and no drag event other than drop ever adds a
`moveProject` call. -/
theorem completed_drop_moves_exactly_once (ty : ListType) (pid : String)
    (s : ProjectState) (n : Nat) (hn : 1 ≤ n) :
    ((runGesture ty pid (initialGesture s)
        (DragEvt.dragstart :: (List.replicate n DragEvt.dragover
          ++ [DragEvt.drop]))).moveCalls
      = [(pid, targetStatus ty)])
  ∧ (∀ (g : Gesture) (e : DragEvt), e ≠ DragEvt.drop →
       (stepGesture ty pid g e).moveCalls = g.moveCalls) := by
  constructor
  · show (runGesture ty pid
      (stepGesture ty pid (initialGesture s) DragEvt.dragstart)
      (List.replicate n DragEvt.dragover ++ [DragEvt.drop])).moveCalls = _
    have hg1 : stepGesture ty pid (initialGesture s) DragEvt.dragstart
        = { dt := dragStartHandler pid emptyDataTransfer, droppable := false,
            accepted := false, store := s, moveCalls := [] } := rfl
    rw [hg1, runGesture_append, runGesture_dragover_replicate ty pid n _ hn
      (by rw [dragStartHandler_empty]; rfl)]
    show (stepGesture ty pid _ DragEvt.drop).moveCalls = _
    simp [stepGesture, dropHandler, dragStartHandler_empty,
      DataTransfer.getData, List.lookup]
  · intro g e he
    cases e with
    | dragstart => rfl
    | dragover => rfl
    | dragleave => rfl
    | drop => exact absurd rfl he
    | dragend => rfl

/-- C7 (witness): the spec scenario D with three dragover deliveries. -/
theorem completed_drop_moves_once_witness :
    (runGesture ListType.finished "abc"
        (initialGesture { projects := [], listeners := [] })
        (DragEvt.dragstart :: (List.replicate 3 DragEvt.dragover
          ++ [DragEvt.drop]))).moveCalls
      = [("abc", ProjectStatus.FINISHED)] := by
  exact (completed_drop_moves_exactly_once ListType.finished "abc"
    { projects := [], listeners := [] } 3 (by decide)).1

/-- C8: `dragOverHandler` suppresses the default reject behaviour
(`preventDefault`) exactly when the gesture declares a payload and its first
declared label is the plain-text marker; a matching dragover also applies the
droppable indicator, a non-matching one changes nothing; and a gesture whose
declared label does not match the marker never reaches `moveProject`,
whatever target-side events follow. -/
theorem dragover_handshake :
    (∀ (droppable : Bool) (dataTransfer : Option DataTransfer),
       ((dragOverHandler droppable dataTransfer).2 = true
         ↔ ∃ dt, dataTransfer = some dt ∧ dt.types.head? = some "text/plain"))
  ∧ (∀ (droppable : Bool) (dt : DataTransfer),
       dt.types.head? = some "text/plain" →
       dragOverHandler droppable (some dt) = (true, true))
  ∧ (∀ (droppable : Bool) (dataTransfer : Option DataTransfer),
       (∀ dt, dataTransfer = some dt → ¬ dt.types.head? = some "text/plain") →
       dragOverHandler droppable dataTransfer = (droppable, false))
  ∧ (∀ (ty : ListType) (pid : String) (g : Gesture) (evts : List DragEvt),
       (∀ e ∈ evts, e ≠ DragEvt.dragstart) →
       ¬ g.dt.types.head? = some "text/plain" → g.accepted = false →
       (runGesture ty pid g evts).moveCalls = g.moveCalls) := by
  refine ⟨?_, ?_, ?_, ?_⟩
  · intro droppable dataTransfer
    constructor
    · intro hacc
      cases dataTransfer with
      | none => simp [dragOverHandler] at hacc
      | some dt =>
          by_cases hdt : dt.types.head? = some "text/plain"
          · exact ⟨dt, rfl, hdt⟩
          · simp [dragOverHandler, hdt] at hacc
    · rintro ⟨dt, rfl, hdt⟩
      simp [dragOverHandler, hdt]
  · intro droppable dt hdt
    simp [dragOverHandler, hdt]
  · intro droppable dataTransfer hno
    cases dataTransfer with
    | none => rfl
    | some dt => simp [dragOverHandler, hno dt rfl]
  · exact fun ty pid g evts hns hdt hacc =>
      run_unaccepted_no_move ty pid evts g hns hdt hacc

/-- C8 (witness): a matching dragover on a concrete gesture accepts and marks
the target droppable. -/
theorem dragover_handshake_witness :
    dragOverHandler false
        (some { types := ["text/plain"], items := [("text/plain", "abc")],
                effectAllowed := "move" })
      = (true, true) := by
  exact dragover_handshake.2.1 false
    { types := ["text/plain"], items := [("text/plain", "abc")],
      effectAllowed := "move" } rfl

/-- C9 (counterexample): the claim that the drop handler removes the
droppable indicator fails on the code.  On a concrete accepted gesture the
drop is completed (the `moveProject` call is made) yet the indicator applied
during dragover is still present afterwards: `dropHandler` never touches the
class list. -/
theorem drop_keeps_indicator_cex :
    ((stepGesture ListType.finished "abc"
        { dt := { types := ["text/plain"], items := [("text/plain", "abc")],
                  effectAllowed := "move" },
          droppable := true, accepted := true,
          store := { projects := [], listeners := [] }, moveCalls := [] }
        DragEvt.drop).droppable = true)
  ∧ ((stepGesture ListType.finished "abc"
        { dt := { types := ["text/plain"], items := [("text/plain", "abc")],
                  effectAllowed := "move" },
          droppable := true, accepted := true,
          store := { projects := [], listeners := [] }, moveCalls := [] }
        DragEvt.drop).moveCalls = [("abc", ProjectStatus.FINISHED)]) := by
  decide

/-- C9 (amended): the droppable indicator is removed only by the dragleave
handler: a drop event leaves the indicator state exactly as it was (so after
a completed drop the indicator applied during dragover is still present until
a dragleave fires), while dragleave always clears it. -/
theorem drop_indicator_removed_only_by_dragleave (ty : ListType)
    (pid : String) (g : Gesture) :
    ((stepGesture ty pid g DragEvt.drop).droppable = g.droppable)
  ∧ ((stepGesture ty pid g DragEvt.dragleave).droppable = false) := by
  constructor
  · by_cases h : g.accepted <;> simp [stepGesture, h]
  · rfl

end App

namespace App

/-- C4 (counterexample): the claim fails on the code because
`this.projects.slice()` is a shallow copy.  Concretely: one task record at
address 0, the store array at array address 0 holding [0]; the snapshot
allocated for a listener is a fresh array (address 1) but holds the same
record address 0, and writing the record through that address changes the
task sequence the store sees. -/
theorem snapshot_shallow_copy_cex :
    (readArr (slice heapEx 0).1 (slice heapEx 0).2
      = readArr (slice heapEx 0).1 0)
  ∧ (storeView
        (setObj (slice heapEx 0).1 0
          { mkProject "a" "t" "d" 1 with status := ProjectStatus.FINISHED }) 0
      ≠ storeView (slice heapEx 0).1 0) := by
  decide

/-- C4 (amended): sequence-level snapshot isolation holds: the snapshot is a
freshly allocated array object distinct from the store array, holding an
equal sequence, and mutating the snapshot array affects neither the store
array, nor any other already-allocated array (in particular any earlier
snapshot), nor the task sequence the store sees.  The copy is shallow,
however: the snapshot holds the same task record addresses, so a listener can
still mutate a store-owned task through it, as the counterexample shows. -/
theorem snapshot_sequence_isolation (h : JsHeap) (sa : Nat)
    (hsa : sa < h.arrays.length) :
    ((slice h sa).2 ≠ sa)
  ∧ (readArr (slice h sa).1 (slice h sa).2 = readArr h sa)
  ∧ (∀ (b : Nat), b < h.arrays.length →
       ∀ v, readArr (setArr (slice h sa).1 (slice h sa).2 v) b = readArr h b)
  ∧ (∀ v, storeView (setArr (slice h sa).1 (slice h sa).2 v) sa
      = storeView h sa) := by
  have hb : ∀ (b : Nat), b < h.arrays.length →
      ∀ v, readArr (setArr (slice h sa).1 (slice h sa).2 v) b = readArr h b := by
    intro b hblt v
    show (match ((h.arrays ++ [readArr h sa]).set h.arrays.length v)[b]? with
      | some w => w
      | none => []) = readArr h b
    rw [List.getElem?_set_ne (by omega), List.getElem?_append_left hblt]
    rfl
  refine ⟨by show h.arrays.length ≠ sa; omega, ?_, hb, ?_⟩
  · show (match (h.arrays ++ [readArr h sa])[h.arrays.length]? with
      | some w => w
      | none => []) = readArr h sa
    rw [List.getElem?_concat_length]
  · intro v
    show ((readArr (setArr (slice h sa).1 (slice h sa).2 v) sa).map _) = _
    rw [hb sa hsa v]
    rfl

/-- C4 (witness): the amended isolation at a concrete heap. -/
theorem snapshot_sequence_isolation_witness :
    readArr (setArr (slice heapEx 0).1 (slice heapEx 0).2 []) 0
      = readArr heapEx 0 := by
  exact (snapshot_sequence_isolation heapEx 0 (by decide)).2.2.1 0 (by decide) []

end App
